import Mathlib

/-!
# Verification of the auth-middleware credential lifecycle engine

A shallow embedding of the core of the `infrastructure` repository's
auth middleware:

* the OTP ledger (`src/auth-middleware/src/utils/otpStore.ts`,
  cooldown-enabled variant),
* the token ledger with persistence
  (`src/auth-middleware/src/utils/tokenStore.ts`, persistence variant),
* the redirect-destination sanitizer and verify handler
  (`src/auth-middleware/src/routes/auth.ts`),
* the subdomain validator
  (`src/auth-middleware/src/utils/subdomainValidator.ts`).

JavaScript `Map<string, T>` objects are embedded as association lists
`List (String × T)` with JS `Map` semantics (`set` updates in place for an
existing key and appends otherwise, `delete` removes the key, insertion
order is preserved).  `Date.now()` is passed explicitly as an `Int`
millisecond timestamp.  SHA-256 (`createHash('sha256')`) is kept abstract
as a `hash : String → String` parameter producing a hex digest; the
byte-level digest comparison (`Buffer.from(·, 'hex')` + `timingSafeEqual`)
is embedded concretely via `hexBytes`.
-/

/-! ## JS string primitives

Embedded on character lists so that all definitions evaluate by kernel
reduction.  They model `String.prototype.toLowerCase` / `toUpperCase`
(ASCII range), `trim`, `split` (single-character separator),
`startsWith` and `endsWith`. -/

/-- JS `toLowerCase()` (ASCII). -/
def jsToLower (s : String) : String := String.mk (s.data.map Char.toLower)

/-- JS `toUpperCase()` (ASCII). -/
def jsToUpper (s : String) : String := String.mk (s.data.map Char.toUpper)

/-- JS `trim()`: strip leading and trailing whitespace. -/
def jsTrim (s : String) : String :=
  String.mk (((s.data.dropWhile Char.isWhitespace).reverse.dropWhile
    Char.isWhitespace).reverse)

/-- Split a character list at every occurrence of `sep`. -/
def splitOnChar (sep : Char) : List Char → List (List Char)
  | [] => [[]]
  | c :: rest =>
    let r := splitOnChar sep rest
    if c = sep then [] :: r
    else
      match r with
      | [] => [[c]]
      | h :: t => (c :: h) :: t

/-- JS `split(sep)` for a one-character separator. -/
def jsSplit (s : String) (sep : Char) : List String :=
  (splitOnChar sep s.data).map String.mk

/-! ## JS `Map<string, α>` embedded as an association list -/

/-- `Map.get`: the value stored at key `k`, scanning in insertion order. -/
def mapGet {α : Type} : List (String × α) → String → Option α
  | [], _ => none
  | p :: rest, k => if p.1 = k then some p.2 else mapGet rest k

/-- `Map.has`: whether key `k` is present. -/
def mapContains {α : Type} (m : List (String × α)) (k : String) : Bool :=
  (mapGet m k).isSome

/-- `Map.set`: update the value in place when the key exists (preserving
insertion order), otherwise append the new binding at the end. -/
def mapSet {α : Type} (m : List (String × α)) (k : String) (v : α) :
    List (String × α) :=
  if mapContains m k then m.map (fun p => if p.1 = k then (k, v) else p)
  else m ++ [(k, v)]

/-- `Map.delete`: remove the binding for key `k`. -/
def mapDelete {α : Type} (m : List (String × α)) (k : String) :
    List (String × α) :=
  m.filter (fun p => p.1 ≠ k)

/-- The keys of the map are pairwise distinct — the invariant every
`Map`-backed store preserves. -/
def keysNodup {α : Type} (m : List (String × α)) : Prop :=
  (m.map Prod.fst).Nodup

/-! ## Hex digests

`verifyOTP` compares digests via `Buffer.from(hex, 'hex')` followed by
`timingSafeEqual`.  `hexBytes` embeds Node's hex decoding: characters are
consumed two at a time and decoding stops at the first incomplete or
invalid pair; `timingSafeEqual` on equal-length buffers is byte-list
equality. -/

/-- Value of a single hexadecimal digit (case-insensitive), or `none`. -/
def hexVal (c : Char) : Option Nat :=
  if '0' ≤ c ∧ c ≤ '9' then some (c.toNat - '0'.toNat)
  else if 'a' ≤ c ∧ c ≤ 'f' then some (c.toNat - 'a'.toNat + 10)
  else if 'A' ≤ c ∧ c ≤ 'F' then some (c.toNat - 'A'.toNat + 10)
  else none

/-- Decode hex characters two at a time, stopping at the first invalid or
incomplete pair (Node `Buffer.from(·, 'hex')` truncation behaviour). -/
def hexBytesAux : List Char → List Nat
  | c1 :: c2 :: rest =>
    match hexVal c1, hexVal c2 with
    | some hi, some lo => (16 * hi + lo) :: hexBytesAux rest
    | _, _ => []
  | _ => []

/-- The byte list a hex digest string decodes to. -/
def hexBytes (s : String) : List Nat := hexBytesAux s.data

/-! ## OTP ledger (`otpStore.ts`, cooldown variant)

The store maps a normalized email to its pending one-time-code entry.
SHA-256 is abstracted as a caller-supplied `hash : String → String`
producing a hex digest. -/

/-- One pending OTP, as stored per normalized email. -/
structure OTPEntry where
  codeHash : String
  attempts : Nat
  expiresAt : Int
  createdAt : Int
  lastRequestAt : Int
deriving Repr, DecidableEq

/-- OTP configuration values read from the environment, with the source's
defaults: 10 minute expiration, 3 max attempts, 60 s request cooldown. -/
structure OTPConfig where
  expirationMs : Int := 10 * 60 * 1000
  maxAttempts : Nat := 3
  cooldownMs : Int := 60 * 1000
deriving Repr, DecidableEq

/-- The OTP ledger: a JS `Map<string, OTPEntry>`. -/
abbrev OTPStoreMap := List (String × OTPEntry)

namespace OTPStore

/-- `canRequestOTP(email)`: true if no entry exists or the entry has
expired (deleting it), otherwise true exactly when the cooldown window
since `lastRequestAt` has elapsed.  Returns the possibly-mutated store. -/
def canRequestOTP (cfg : OTPConfig) (store : OTPStoreMap) (email : String)
    (now : Int) : Bool × OTPStoreMap :=
  let normalizedEmail := jsTrim (jsToLower email)
  match mapGet store normalizedEmail with
  | none => (true, store)
  | some entry =>
    if now > entry.expiresAt then (true, mapDelete store normalizedEmail)
    else ((now - entry.lastRequestAt ≥ cfg.cooldownMs : Bool), store)

/-- `storeOTP(email, code)`: overwrite the entry for the normalized email
with the hash of the normalized (uppercased, trimmed) code, zero attempts
and fresh timestamps. -/
def storeOTP (cfg : OTPConfig) (hash : String → String) (store : OTPStoreMap)
    (email code : String) (now : Int) : OTPStoreMap :=
  let normalizedEmail := jsTrim (jsToLower email)
  let normalizedCode := jsTrim (jsToUpper code)
  let codeHash := hash normalizedCode
  mapSet store normalizedEmail
    { codeHash := codeHash
      attempts := 0
      expiresAt := now + cfg.expirationMs
      createdAt := now
      lastRequestAt := now }

/-- `verifyOTP(email, code)`: false if no entry, if expired (deleting the
entry), or if `attempts` already reached the maximum.  Otherwise the
attempt counter is incremented first, then the digests are compared
(byte-decoded, with a length pre-check before `timingSafeEqual`); on a
match the entry is deleted and the result is true, on a mismatch the
incremented entry stays in place and the result is false. -/
def verifyOTP (cfg : OTPConfig) (hash : String → String) (store : OTPStoreMap)
    (email code : String) (now : Int) : Bool × OTPStoreMap :=
  let normalizedEmail := jsTrim (jsToLower email)
  let normalizedCode := jsTrim (jsToUpper code)
  match mapGet store normalizedEmail with
  | none => (false, store)
  | some entry =>
    if now > entry.expiresAt then (false, mapDelete store normalizedEmail)
    else if entry.attempts ≥ cfg.maxAttempts then (false, store)
    else
      let store' := mapSet store normalizedEmail
        { entry with attempts := entry.attempts + 1 }
      let codeHash := hash normalizedCode
      let expectedHash := hexBytes entry.codeHash
      let actualHash := hexBytes codeHash
      if expectedHash.length ≠ actualHash.length then (false, store')
      else if expectedHash = actualHash then (true, mapDelete store' normalizedEmail)
      else (false, store')

/-- `hasPendingOTP(email)`: existence check that also purges an expired
entry as a side effect. -/
def hasPendingOTP (store : OTPStoreMap) (email : String) (now : Int) :
    Bool × OTPStoreMap :=
  let normalizedEmail := jsTrim (jsToLower email)
  match mapGet store normalizedEmail with
  | none => (false, store)
  | some entry =>
    if now > entry.expiresAt then (false, mapDelete store normalizedEmail)
    else (true, store)

/-- A sequence of `verifyOTP` calls for one email: each element of
`guesses` is a submitted code together with the `Date.now()` at which it
is verified; the store is threaded through. -/
def verifyRun (cfg : OTPConfig) (hash : String → String) (store : OTPStoreMap)
    (email : String) (guesses : List (String × Int)) : OTPStoreMap :=
  guesses.foldl (fun s g => (verifyOTP cfg hash s email g.1 g.2).2) store

end OTPStore

/-! ## Token ledger (`tokenStore.ts`, persistence variant) -/

/-- The two token classes. -/
inductive TokenType where
  | session
  | access
deriving Repr, DecidableEq

/-- One stored token binding: normalized email, token class, validity. -/
structure TokenEntry where
  email : String
  type : TokenType
  expiresAt : Int
  createdAt : Int
deriving Repr, DecidableEq

/-- `TOKEN_EXPIRATION_MS = 24 * 60 * 60 * 1000` (24 hours). -/
def TOKEN_EXPIRATION_MS : Int := 24 * 60 * 60 * 1000

/-- The token ledger: a JS `Map<string, TokenEntry>`. -/
abbrev TokenStoreMap := List (String × TokenEntry)

/-- The on-disk snapshot: a format version and the ordered `(token, entry)`
pairs (`JSON.stringify({version, tokens: Array.from(store.entries())})`). -/
structure PersistedData where
  version : Int
  tokens : List (String × TokenEntry)
deriving Repr, DecidableEq

namespace TokenStore

/-- `storeToken(token, email, type)`: insert/overwrite the binding with a
24 h validity window from `now` and the email lower-cased and trimmed. -/
def storeToken (store : TokenStoreMap) (token email : String) (type : TokenType)
    (now : Int) : TokenStoreMap :=
  let normalizedEmail := jsTrim (jsToLower email)
  mapSet store token
    { email := normalizedEmail
      type := type
      expiresAt := now + TOKEN_EXPIRATION_MS
      createdAt := now }

/-- `getEmail(token, requiredType?)`: `none` if the token is absent, if it
has expired (deleting it first), or if a required type is given and the
stored type differs; otherwise the stored email.  Returns the
possibly-mutated store. -/
def getEmail (store : TokenStoreMap) (token : String)
    (requiredType : Option TokenType) (now : Int) :
    Option String × TokenStoreMap :=
  match mapGet store token with
  | none => (none, store)
  | some entry =>
    if now > entry.expiresAt then (none, mapDelete store token)
    else
      match requiredType with
      | some rt => if entry.type ≠ rt then (none, store) else (some entry.email, store)
      | none => (some entry.email, store)

/-- `removeToken(token)`: explicit invalidation (logout). -/
def removeToken (store : TokenStoreMap) (token : String) : TokenStoreMap :=
  mapDelete store token

/-- `cleanup()`: collect every token whose entry has expired, then delete
each collected token. -/
def cleanup (store : TokenStoreMap) (now : Int) : TokenStoreMap :=
  let expiredTokens := (store.filter (fun p => now > p.2.expiresAt)).map Prod.fst
  expiredTokens.foldl (fun s t => mapDelete s t) store

/-- `saveToFile()`: run `cleanup` first, then serialize the surviving
entries in order under format version 1.  Returns the written document
and the (cleaned) in-memory store. -/
def saveToFile (store : TokenStoreMap) (now : Int) : PersistedData × TokenStoreMap :=
  let cleaned := cleanup store now
  ({ version := 1, tokens := cleaned }, cleaned)

/-- `loadFromFile()`: with no snapshot present the store is returned
unchanged (an absent file is not an error); a document whose `version`
field is falsy (`0` here, `0`/missing in JS) or whose `tokens` field is
not an array is ignored; otherwise every pair whose entry has
`expiresAt > now` is `set` into the store and expired pairs are skipped. -/
def loadFromFile (store : TokenStoreMap) (file : Option PersistedData)
    (now : Int) : TokenStoreMap :=
  match file with
  | none => store
  | some data =>
    if data.version = 0 then store
    else data.tokens.foldl
      (fun s p => if p.2.expiresAt > now then mapSet s p.1 p.2 else s) store

end TokenStore

/-! ## String helpers modelling the JS string API -/

/-- JS `String.prototype.startsWith`, on character lists. -/
def jsStartsWith (s p : String) : Bool := p.data.isPrefixOf s.data

/-- JS `String.prototype.endsWith`, on character lists. -/
def jsEndsWith (s p : String) : Bool := p.data.isSuffixOf s.data

/-! ## Redirect-destination sanitizer (`auth.ts`, `validateRedirectUrl`) -/

/-- The `hostname` of `new URL(r)` for an `http://`/`https://` URL:
the authority is the portion after the scheme up to the first `/`, `?` or
`#`; userinfo (anything up to the last `@`) and the port (after `:`) are
dropped and the host is lower-cased.  An empty host makes `new URL`
throw, embedded as `none`.  (IPv6 host literals are not modelled.) -/
def urlHostname (r : String) : Option String :=
  let afterScheme :=
    if jsStartsWith r "https://" then some (r.drop 8)
    else if jsStartsWith r "http://" then some (r.drop 7)
    else none
  match afterScheme with
  | none => none
  | some rest =>
    let authority := rest.data.takeWhile (fun c => c ≠ '/' ∧ c ≠ '?' ∧ c ≠ '#')
    let hostPort := ((splitOnChar '@' authority).map String.mk).getLastD ""
    let host := hostPort.data.takeWhile (fun c => c ≠ ':')
    if host.isEmpty then none else some (jsToLower (String.mk host))

/-- `validateRedirectUrl(redirect, baseDomain)`: the default `'/'` for a
missing/empty value; a relative path starting with a single `/` is kept;
an absolute `http(s)` URL is kept only when a non-empty base domain is
configured and the URL's hostname equals the base domain or ends with
`"." + baseDomain`; everything else (protocol-relative URLs, foreign
hosts, other schemes, unparsable URLs) collapses to `'/'`. -/
def validateRedirectUrl (redirect : Option String) (baseDomain : Option String) :
    String :=
  match redirect with
  | none => "/"
  | some r =>
    if r = "" then "/"
    else if jsStartsWith r "/" && !jsStartsWith r "//" then r
    else
      match baseDomain with
      | none => "/"
      | some base =>
        if base ≠ "" ∧ (jsStartsWith r "https://" || jsStartsWith r "http://") then
          match urlHostname r with
          | none => "/"
          | some host =>
            if host = base || jsEndsWith host ("." ++ base) then r else "/"
        else "/"

/-! ## Host trust checker (`subdomainValidator.ts`) -/

/-- Outcome of `validateSubdomain`. -/
structure SubdomainValidationResult where
  isValid : Bool
  subdomain : Option String
  hostname : String
  reason : Option String
deriving Repr, DecidableEq

/-- A character matched by the `[a-z0-9-]` label class (the regex carries
the `i` flag, so upper-case letters match too). -/
def isLabelChar (c : Char) : Bool :=
  ('a' ≤ c && c ≤ 'z') || ('A' ≤ c && c ≤ 'Z') || ('0' ≤ c && c ≤ '9') || c = '-'

/-- Whether `s` is a (possibly empty) sequence of `label.` repetitions,
each label a non-empty run of `[a-z0-9-]` characters. -/
def validLabelSeq (s : String) : Bool :=
  s = "" ||
    (let parts := jsSplit s '.'
     decide (parts.length ≥ 2) && (parts.getLastD "" = "") &&
       parts.dropLast.all (fun part => part ≠ "" && part.data.all isLabelChar))

/-- A configured domain on which the embedded pattern matcher agrees with
the source's regex construction: lower-case `[a-z0-9-]` characters and at
most one dot (`DOMAIN.replace('.', '\\.')` escapes only the first dot, so
further dots would act as regex wildcards). -/
def plainDomain (d : String) : Bool :=
  d.data.all
    (fun c => (('a' ≤ c && c ≤ 'z') || ('0' ≤ c && c ≤ '9') || c = '-' || c = '.')) &&
    decide ((d.data.filter (fun c => c = '.')).length ≤ 1)

/-- The case-insensitive test of `hostname` against
`^([a-z0-9-]+\.)*{domain}$`: the lower-cased hostname is the lower-cased
domain, optionally preceded by a dot-terminated sequence of labels. -/
def matchesDomainPattern (hostname domain : String) : Bool :=
  let h := jsToLower hostname
  let d := jsToLower domain
  jsEndsWith h d && validLabelSeq (h.dropRight d.length)

/-- The subdomain extraction
`hostname.replace(new RegExp(`\\.?{domain}$`, 'i'), '')`: strip a
trailing `.{domain}` (preferred, the optional dot being greedy) or a
trailing `{domain}`, case-insensitively, keeping the prefix's case. -/
def extractSubdomain (hostname domain : String) : String :=
  if jsEndsWith (jsToLower hostname) ("." ++ jsToLower domain) then
    hostname.dropRight (domain.length + 1)
  else if jsEndsWith (jsToLower hostname) (jsToLower domain) then
    hostname.dropRight domain.length
  else hostname

/-- `ALLOWED_SUBDOMAINS.split(',').map(s => s.trim())`. -/
def allowedListOf (a : String) : List String :=
  (jsSplit a ',').map jsTrim

/-- `validateSubdomain(hostname)` with the environment configuration
(`DOMAIN`, `ALLOWED_SUBDOMAINS`) passed explicitly; `none` or `some ""`
model an unset/empty (falsy) environment variable. -/
def validateSubdomain (domain allowed : Option String)
    (hostname : Option String) : SubdomainValidationResult :=
  match hostname with
  | none => ⟨false, none, "", some "No hostname provided"⟩
  | some h =>
    if h = "" then ⟨false, none, "", some "No hostname provided"⟩
    else
      match domain with
      | none => ⟨true, none, h, some "No domain configured (development mode)"⟩
      | some d =>
        if d = "" then ⟨true, none, h, some "No domain configured (development mode)"⟩
        else if !matchesDomainPattern h d then
          ⟨false, none, h, some ("Hostname does not match domain pattern: " ++ d)⟩
        else
          let sub := extractSubdomain h d
          match allowed with
          | none =>
            ⟨true, if sub = "" then none else some sub, h,
              some "No subdomain allowlist configured - all subdomains allowed"⟩
          | some a =>
            if a = "" then
              ⟨true, if sub = "" then none else some sub, h,
                some "No subdomain allowlist configured - all subdomains allowed"⟩
            else if a = "*" then
              ⟨true, if sub = "" then none else some sub, h, none⟩
            else
              let allowedList := allowedListOf a
              if sub = "" then
                if allowedList.contains "" || allowedList.contains "@" then
                  ⟨true, none, h, none⟩
                else ⟨false, none, h, some "Main domain not in allowlist"⟩
              else if allowedList.contains sub then ⟨true, some sub, h, none⟩
              else
                ⟨false, some sub, h,
                  some ("Subdomain '" ++ sub ++ "' not in allowlist: " ++ a)⟩

/-! ## The `/verify` handler (`auth.ts`) -/

/-- The three responses the `/verify` handler can produce. -/
inductive VerifyOutcome where
  | denied403
  | ok200 (email : String)
  | redirect302
deriving Repr, DecidableEq

/-- A truthy environment string (`process.env.X` is set and non-empty). -/
def envTruthy (v : Option String) : Bool :=
  match v with
  | none => false
  | some s => s ≠ ""

/-- The cookie-inspection tail of the `/verify` handler: a signed cookie
holding a live session-typed token yields 200 with the resolved email,
anything else yields the 302 redirect to login. -/
def verifyCookieCheck (cookieToken : Option String) (tokens : TokenStoreMap)
    (now : Int) : VerifyOutcome × TokenStoreMap :=
  match cookieToken with
  | none => (.redirect302, tokens)
  | some tok =>
    if tok = "" then (.redirect302, tokens)
    else
      match TokenStore.getEmail tokens tok (some .session) now with
      | (some email, tokens') => (.ok200 email, tokens')
      | (none, tokens') => (.redirect302, tokens')

/-- The `/verify` handler: the forwarded host is validated first and the
request is denied with 403 when the validation fails **and**
`ALLOWED_SUBDOMAINS` is set (truthy); otherwise the signed session cookie
is inspected. -/
def verifyHandler (domain allowed : Option String) (forwardedHost : Option String)
    (cookieToken : Option String) (tokens : TokenStoreMap) (now : Int) :
    VerifyOutcome × TokenStoreMap :=
  let validationResult := validateSubdomain domain allowed forwardedHost
  if !validationResult.isValid && envTruthy allowed then (.denied403, tokens)
  else verifyCookieCheck cookieToken tokens now

/-! ## Association-list map laws -/

theorem mapGet_nil {α : Type} (k : String) : mapGet ([] : List (String × α)) k = none := rfl

theorem mapGet_cons {α : Type} (p : String × α) (rest : List (String × α)) (k : String) :
    mapGet (p :: rest) k = if p.1 = k then some p.2 else mapGet rest k := rfl

theorem mapGet_map_update {α : Type} (m : List (String × α)) (k : String) (v : α) :
    mapGet (m.map (fun p => if p.1 = k then (k, v) else p)) k =
      if mapContains m k then some v else none := by
  induction m with
  | nil => rfl
  | cons p rest ih =>
    by_cases h : p.1 = k
    · simp [mapGet_cons, mapContains, h]
    · simp only [List.map_cons, if_neg h, mapGet_cons, ih, mapContains, mapGet_cons,
        if_neg h]

theorem mapGet_map_update_ne {α : Type} (m : List (String × α)) (k k' : String) (v : α)
    (h : k' ≠ k) :
    mapGet (m.map (fun p => if p.1 = k then (k, v) else p)) k' = mapGet m k' := by
  induction m with
  | nil => rfl
  | cons p rest ih =>
    by_cases hp : p.1 = k
    · have hk : k ≠ k' := fun e => h e.symm
      have hp' : p.1 ≠ k' := fun e => h (e.symm.trans hp)
      simp [mapGet_cons, hp, hk, hp', ih]
    · by_cases hp' : p.1 = k'
      · simp [mapGet_cons, hp, hp', h]
      · simp [mapGet_cons, hp, hp', ih]

theorem mapGet_append_single_ne {α : Type} (m : List (String × α)) (k k' : String) (v : α)
    (h : k' ≠ k) : mapGet (m ++ [(k, v)]) k' = mapGet m k' := by
  induction m with
  | nil => simp [mapGet_cons, mapGet_nil, Ne.symm h]
  | cons p rest ih => by_cases hp : p.1 = k' <;> simp [mapGet_cons, hp, ih]

theorem mapGet_append_of_not_contains {α : Type} (m l : List (String × α)) (k : String)
    (h : mapContains m k = false) : mapGet (m ++ l) k = mapGet l k := by
  induction m with
  | nil => rfl
  | cons p rest ih =>
    by_cases hp : p.1 = k
    · exfalso
      simp [mapContains, mapGet_cons, hp] at h
    · simp only [mapContains, mapGet_cons, if_neg hp] at h
      simp [mapGet_cons, if_neg hp, ih h]

/-- After `set m k v`, looking up `k` finds `v`. -/
theorem mapGet_set_self {α : Type} (m : List (String × α)) (k : String) (v : α) :
    mapGet (mapSet m k v) k = some v := by
  unfold mapSet
  by_cases h : mapContains m k
  · rw [if_pos h, mapGet_map_update, if_pos h]
  · rw [if_neg h, mapGet_append_of_not_contains m _ k (by simpa using h)]
    simp [mapGet_cons]

/-- `set` at one key does not affect lookups at another key. -/
theorem mapGet_set_ne {α : Type} (m : List (String × α)) (k k' : String) (v : α)
    (h : k' ≠ k) : mapGet (mapSet m k v) k' = mapGet m k' := by
  unfold mapSet
  by_cases hc : mapContains m k
  · rw [if_pos hc, mapGet_map_update_ne m k k' v h]
  · rw [if_neg hc, mapGet_append_single_ne m k k' v h]

/-- After `delete m k`, the key `k` is gone. -/
theorem mapGet_delete_self {α : Type} (m : List (String × α)) (k : String) :
    mapGet (mapDelete m k) k = none := by
  induction m with
  | nil => rfl
  | cons p rest ih =>
    by_cases hp : p.1 = k
    · simpa [mapDelete, hp] using ih
    · simpa [mapDelete, List.filter_cons, hp, mapGet_cons] using ih

/-- `delete` at one key does not affect lookups at another key. -/
theorem mapGet_delete_ne {α : Type} (m : List (String × α)) (k k' : String)
    (h : k' ≠ k) : mapGet (mapDelete m k) k' = mapGet m k' := by
  induction m with
  | nil => rfl
  | cons p rest ih =>
    simp only [mapDelete, List.filter_cons, decide_not] at ih ⊢
    by_cases hp : p.1 = k
    · have hp' : p.1 ≠ k' := fun e => h (e.symm.trans hp)
      simp [hp, mapGet_cons, hp', ih, h, Ne.symm h]
    · by_cases hp' : p.1 = k'
      · simp [hp, mapGet_cons, hp', ih, h, Ne.symm h]
      · simp [hp, mapGet_cons, hp', ih]

theorem mapGet_eq_none_of_not_contains {α : Type} (m : List (String × α)) (k : String)
    (h : mapContains m k = false) : mapGet m k = none := by
  unfold mapContains at h
  cases hg : mapGet m k with
  | none => rfl
  | some v => rw [hg] at h; cases h

/-- Keys with distinct bindings: in a map with `Nodup` keys, two members
sharing a key are the same pair. -/
theorem keysNodup_mem_inj {α : Type} {m : List (String × α)} (h : keysNodup m)
    {p q : String × α} (hp : p ∈ m) (hq : q ∈ m) (hk : p.1 = q.1) : p = q := by
  induction m with
  | nil => cases hp
  | cons r rest ih =>
    have hr : r.1 ∉ rest.map Prod.fst ∧ (rest.map Prod.fst).Nodup := by
      simpa [keysNodup, List.map_cons] using h
    rcases List.mem_cons.mp hp with hp1 | hp1 <;>
      rcases List.mem_cons.mp hq with hq1 | hq1
    · rw [hp1, hq1]
    · exfalso
      apply hr.1
      have : q.1 ∈ rest.map Prod.fst := List.mem_map_of_mem Prod.fst hq1
      rwa [← hk, hp1] at this
    · exfalso
      apply hr.1
      have : p.1 ∈ rest.map Prod.fst := List.mem_map_of_mem Prod.fst hp1
      rwa [hk, hq1] at this
    · exact ih hr.2 hp1 hq1

theorem mapContains_append {α : Type} (m l : List (String × α)) (k : String) :
    mapContains (m ++ l) k = (mapContains m k || mapContains l k) := by
  induction m with
  | nil => simp [mapContains, mapGet_nil]
  | cons p rest ih =>
    by_cases hp : p.1 = k
    · simp [mapContains, mapGet_cons, hp]
    · simp only [List.cons_append, mapContains, mapGet_cons, if_neg hp]
      simpa [mapContains] using ih

/-- `set` on an absent key appends the binding. -/
theorem mapSet_eq_append {α : Type} (m : List (String × α)) (k : String) (v : α)
    (h : mapContains m k = false) : mapSet m k v = m ++ [(k, v)] := by
  unfold mapSet
  rw [h]
  simp

/-- Deleting a list of keys is filtering out those keys. -/
theorem foldl_mapDelete_eq_filter {α : Type} (ks : List String) (m : List (String × α)) :
    ks.foldl (fun s t => mapDelete s t) m =
      m.filter (fun p => !ks.contains p.1) := by
  induction ks generalizing m with
  | nil => simp
  | cons k rest ih =>
    rw [List.foldl_cons, ih, mapDelete, List.filter_filter]
    apply List.filter_congr
    intro p _
    by_cases hk : p.1 = k <;> simp [hk, List.contains_cons]

/-- Under the no-duplicate-keys invariant, `cleanup` keeps exactly the
entries that have not expired. -/
theorem cleanup_eq_filter (store : TokenStoreMap) (now : Int)
    (h : keysNodup store) :
    TokenStore.cleanup store now =
      store.filter (fun p => !decide (now > p.2.expiresAt)) := by
  unfold TokenStore.cleanup
  rw [foldl_mapDelete_eq_filter]
  apply List.filter_congr
  intro p hp
  by_cases hexp : now > p.2.expiresAt
  · have : p.1 ∈ (store.filter (fun q => decide (now > q.2.expiresAt))).map Prod.fst :=
      List.mem_map_of_mem Prod.fst (List.mem_filter.mpr ⟨hp, by simpa using hexp⟩)
    simp [hexp, this]
  · simp only [hexp, decide_False, Bool.not_false]
    suffices hs : ¬ p.1 ∈ (store.filter (fun q => decide (now > q.2.expiresAt))).map Prod.fst by
      simp [hs]
    intro hmem
    rcases List.mem_map.mp hmem with ⟨q, hq, hqk⟩
    rcases List.mem_filter.mp hq with ⟨hqmem, hqexp⟩
    have := keysNodup_mem_inj h hp hqmem hqk.symm
    rw [this] at hexp
    exact hexp (by simpa using hqexp)

/-- The load fold over pairs with fresh keys appends exactly the
non-expired pairs, in order. -/
theorem foldl_load_eq_filter (l : List (String × TokenEntry)) (now : Int) :
    ∀ acc : List (String × TokenEntry),
      (∀ k ∈ l.map Prod.fst, mapContains acc k = false) →
      (l.map Prod.fst).Nodup →
      l.foldl (fun s p => if p.2.expiresAt > now then mapSet s p.1 p.2 else s) acc =
        acc ++ l.filter (fun p => decide (p.2.expiresAt > now)) := by
  induction l with
  | nil => intro acc _ _; simp
  | cons p rest ih =>
    intro acc hd hn
    have hpk : mapContains acc p.1 = false := hd p.1 (by simp)
    have hn' : (rest.map Prod.fst).Nodup := by
      simpa [List.map_cons] using hn.of_cons
    have hpnotin : p.1 ∉ rest.map Prod.fst := by
      have := hn
      simp only [List.map_cons, List.nodup_cons] at this
      exact this.1
    rw [List.foldl_cons]
    by_cases hexp : p.2.expiresAt > now
    · rw [if_pos hexp, mapSet_eq_append acc p.1 p.2 hpk, ih (acc ++ [(p.1, p.2)])]
      · simp [List.filter_cons, hexp, List.append_assoc]
      · intro k hk
        rw [mapContains_append]
        have h1 : mapContains acc k = false := hd k (by simp [hk])
        have h2 : mapContains [(p.1, p.2)] k = false := by
          have hne : p.1 ≠ k := fun e => hpnotin (e ▸ hk)
          simp [mapContains, mapGet_cons, hne, mapGet_nil]
        rw [h1, h2]
        rfl
      · exact hn'
    · rw [if_neg hexp, ih acc (fun k hk => hd k (by simp [hk])) hn']
      simp [List.filter_cons, hexp]

/-! ## Claim theorems -/

/-- **C3** — Token round-trip with type isolation: for every token string
`t` and (normalized) identity `id`, `storeToken t id session` followed by
`getEmail t session` before expiry returns `id`, while `getEmail t access`
on the same token returns `none`: a token of one type is never accepted
where the other type is required. -/
theorem storeToken_roundTrip_type_isolation
    (store : TokenStoreMap) (t id : String) (now later : Int)
    (hnorm : jsTrim (jsToLower id) = id)
    (hlive : later ≤ now + TOKEN_EXPIRATION_MS) :
    (TokenStore.getEmail (TokenStore.storeToken store t id .session now) t
        (some .session) later).1 = some id ∧
    (TokenStore.getEmail (TokenStore.storeToken store t id .session now) t
        (some .access) later).1 = none := by
  have hg : mapGet (TokenStore.storeToken store t id .session now) t =
      some { email := jsTrim (jsToLower id), type := .session,
             expiresAt := now + TOKEN_EXPIRATION_MS, createdAt := now } :=
    mapGet_set_self store t _
  have hnexp : ¬ later > now + TOKEN_EXPIRATION_MS := not_lt.mpr hlive
  constructor
  · unfold TokenStore.getEmail
    rw [hg]
    simp [hnexp, hnorm]
  · unfold TokenStore.getEmail
    rw [hg]
    simp [hnexp]

/-- Witness for `storeToken_roundTrip_type_isolation` at a concrete
store, token and identity. -/
theorem storeToken_roundTrip_type_isolation_witness :
    (TokenStore.getEmail (TokenStore.storeToken [] "tok1" "alice@example.com"
        .session 1000) "tok1" (some .session) 2000).1 = some "alice@example.com" ∧
    (TokenStore.getEmail (TokenStore.storeToken [] "tok1" "alice@example.com"
        .session 1000) "tok1" (some .access) 2000).1 = none :=
  storeToken_roundTrip_type_isolation [] "tok1" "alice@example.com" 1000 2000
    (by decide) (by decide)

/-- **C10** — Wrong-type lookups are pure: a `getEmail` with a required
type different from a live entry's stored type returns `none` and leaves
the store unchanged, the entry stays retrievable under its correct type,
and the only mutating lookup is the lazy deletion of an expired entry. -/
theorem getEmail_wrong_type_frame
    (store : TokenStoreMap) (token : String) (entry : TokenEntry)
    (rt : TokenType) (now : Int)
    (hget : mapGet store token = some entry)
    (hlive : ¬ now > entry.expiresAt)
    (hty : rt ≠ entry.type) :
    TokenStore.getEmail store token (some rt) now = (none, store) ∧
    (TokenStore.getEmail store token (some entry.type) now).1 = some entry.email ∧
    (∀ (s : TokenStoreMap) (tok : String) (rtOpt : Option TokenType) (n : Int),
      (TokenStore.getEmail s tok rtOpt n).2 ≠ s →
      ∃ e, mapGet s tok = some e ∧ n > e.expiresAt ∧
        (TokenStore.getEmail s tok rtOpt n).2 = mapDelete s tok) := by
  refine ⟨?_, ?_, ?_⟩
  · unfold TokenStore.getEmail
    rw [hget]
    simp [hlive, Ne.symm hty]
  · unfold TokenStore.getEmail
    rw [hget]
    simp [hlive]
  · intro s tok rtOpt n hmut
    unfold TokenStore.getEmail at hmut ⊢
    cases hg : mapGet s tok with
    | none =>
      rw [hg] at hmut
      simp at hmut
    | some e =>
      rw [hg] at hmut
      by_cases hexp : n > e.expiresAt
      · refine ⟨e, rfl, hexp, ?_⟩
        simp [hexp]
      · exfalso
        apply hmut
        cases rtOpt with
        | none => simp [hexp]
        | some rt' => by_cases h' : e.type = rt' <;> simp [hexp, h']

/-- Witness for `getEmail_wrong_type_frame` at a concrete live entry. -/
theorem getEmail_wrong_type_frame_witness :
    TokenStore.getEmail [("tok1", ⟨"a@b.c", .session, 100, 0⟩)] "tok1"
        (some .access) 50 = (none, [("tok1", ⟨"a@b.c", .session, 100, 0⟩)]) ∧
    (TokenStore.getEmail [("tok1", ⟨"a@b.c", .session, 100, 0⟩)] "tok1"
        (some .session) 50).1 = some "a@b.c" :=
  ⟨(getEmail_wrong_type_frame [("tok1", ⟨"a@b.c", .session, 100, 0⟩)] "tok1"
      ⟨"a@b.c", .session, 100, 0⟩ .access 50 (by decide) (by decide) (by decide)).1,
   (getEmail_wrong_type_frame [("tok1", ⟨"a@b.c", .session, 100, 0⟩)] "tok1"
      ⟨"a@b.c", .session, 100, 0⟩ .access 50 (by decide) (by decide) (by decide)).2.1⟩

/-- **C4** — Persistence round-trip: saving the ledger with `saveToFile`
and loading the snapshot with `loadFromFile` into a fresh empty ledger
reproduces exactly the entries that are not expired at load time (the
loader's own `expiresAt > now` test); entries expired relative to the
load time are discarded, and absence of a snapshot file yields an empty
ledger without error. -/
theorem save_load_roundTrip
    (store : TokenStoreMap) (saveNow loadNow : Int)
    (hnodup : keysNodup store) (horder : saveNow ≤ loadNow) :
    TokenStore.loadFromFile [] (some (TokenStore.saveToFile store saveNow).1)
        loadNow = store.filter (fun p => decide (p.2.expiresAt > loadNow)) ∧
    TokenStore.loadFromFile [] none loadNow = [] := by
  constructor
  · have hclean : TokenStore.cleanup store saveNow =
        store.filter (fun p => !decide (saveNow > p.2.expiresAt)) :=
      cleanup_eq_filter store saveNow hnodup
    have hsub : ((TokenStore.cleanup store saveNow).map Prod.fst).Nodup := by
      rw [hclean]
      exact List.Nodup.sublist (List.Sublist.map Prod.fst (List.filter_sublist store))
        hnodup
    unfold TokenStore.loadFromFile TokenStore.saveToFile
    simp only []
    rw [if_neg (by decide : ¬ (1 : Int) = 0),
      foldl_load_eq_filter _ loadNow [] (fun k _ => rfl) hsub, List.nil_append,
      hclean, List.filter_filter]
    apply List.filter_congr
    intro p _
    by_cases hl : p.2.expiresAt > loadNow
    · have hs : ¬ saveNow > p.2.expiresAt := by omega
      simp [hl, hs]
    · simp [hl]
  · rfl

/-- Witness for `save_load_roundTrip` on a concrete two-entry ledger with
one entry expired at load time. -/
theorem save_load_roundTrip_witness :
    TokenStore.loadFromFile []
        (some (TokenStore.saveToFile
          [("t1", ⟨"a@b.c", .session, 50, 0⟩), ("t2", ⟨"d@e.f", .access, 500, 0⟩)]
          40).1) 100 = [("t2", ⟨"d@e.f", .access, 500, 0⟩)] ∧
    TokenStore.loadFromFile [] none 100 = [] := by
  have h := save_load_roundTrip
    [("t1", ⟨"a@b.c", .session, 50, 0⟩), ("t2", ⟨"d@e.f", .access, 500, 0⟩)]
    40 100 (by unfold keysNodup; decide) (by decide)
  exact ⟨h.1.trans (by decide), h.2⟩

/-- **C9 counterexample** — a persisted document with unknown version `2`
(the writer emits version `1`) and a well-formed token list is *loaded*,
not ignored: the loader's validation only rejects a falsy version. -/
theorem load_unknown_version_loads_entries :
    TokenStore.loadFromFile []
        (some ⟨2, [("t", ⟨"a@b.c", .session, 1000, 0⟩)]⟩) 0 =
      [("t", ⟨"a@b.c", .session, 1000, 0⟩)] ∧
    (2 : Int) ≠ 1 ∧
    TokenStore.loadFromFile []
        (some ⟨2, [("t", ⟨"a@b.c", .session, 1000, 0⟩)]⟩) 0 ≠ [] := by
  refine ⟨by decide, by decide, by decide⟩

/-- **C9 (amended)** — the loader's version check rejects only a falsy
(zero/missing) version field: with `version = 0` the store is left empty,
with any non-zero version (unknown ones included) the non-expired entries
are loaded; an absent file also yields an empty store, and the loader is
a total function (it never crashes). -/
theorem load_version_check
    (data : PersistedData) (now : Int)
    (hnodup : (data.tokens.map Prod.fst).Nodup) :
    TokenStore.loadFromFile [] (some data) now =
      (if data.version = 0 then []
       else data.tokens.filter (fun p => decide (p.2.expiresAt > now))) ∧
    TokenStore.loadFromFile [] none now = [] := by
  constructor
  · unfold TokenStore.loadFromFile
    by_cases hv : data.version = 0
    · simp [hv]
    · simp only []
      rw [if_neg hv, if_neg hv,
        foldl_load_eq_filter _ now [] (fun k _ => rfl) hnodup, List.nil_append]
  · rfl

/-- Witness for `load_version_check`: a version-0 document is ignored. -/
theorem load_version_check_witness :
    TokenStore.loadFromFile []
        (some ⟨0, [("t", ⟨"a@b.c", .session, 1000, 0⟩)]⟩) 5 = [] := by
  have h := load_version_check ⟨0, [("t", ⟨"a@b.c", .session, 1000, 0⟩)]⟩ 5 (by decide)
  exact h.1.trans (by decide)

/-- **C6** — `canRequestOTP` returns true exactly when no entry exists,
the entry has expired, or the cooldown window since `lastRequestAt` has
elapsed; in particular it is false immediately after `storeOTP` (with a
positive cooldown and non-negative expiration window) and true again once
the cooldown window has elapsed. -/
theorem canRequestOTP_cooldown
    (cfg : OTPConfig) (hash : String → String) (store : OTPStoreMap)
    (email code : String) (t : Int)
    (hcool : 0 < cfg.cooldownMs) (hexp : 0 ≤ cfg.expirationMs) :
    ((OTPStore.canRequestOTP cfg store email t).1 = true ↔
      (mapGet store (jsTrim (jsToLower email)) = none ∨
       ∃ e, mapGet store (jsTrim (jsToLower email)) = some e ∧
         (t > e.expiresAt ∨ t - e.lastRequestAt ≥ cfg.cooldownMs))) ∧
    (OTPStore.canRequestOTP cfg
        (OTPStore.storeOTP cfg hash store email code t) email t).1 = false ∧
    (∀ t' : Int, t' - t ≥ cfg.cooldownMs →
      (OTPStore.canRequestOTP cfg
          (OTPStore.storeOTP cfg hash store email code t) email t').1 = true) := by
  refine ⟨?_, ?_, ?_⟩
  · unfold OTPStore.canRequestOTP
    cases hg : mapGet store (jsTrim (jsToLower email)) with
    | none => simp [hg]
    | some e =>
      by_cases hb : t > e.expiresAt
      · simp [hg, hb]
      · by_cases hc : t - e.lastRequestAt ≥ cfg.cooldownMs <;> simp [hg, hb, hc]
  · have hg : mapGet (OTPStore.storeOTP cfg hash store email code t)
        (jsTrim (jsToLower email)) =
        some { codeHash := hash (jsTrim (jsToUpper code)), attempts := 0,
               expiresAt := t + cfg.expirationMs, createdAt := t,
               lastRequestAt := t } := mapGet_set_self store _ _
    unfold OTPStore.canRequestOTP
    simp only [hg]
    have h1 : ¬ t > t + cfg.expirationMs := by omega
    have h2 : ¬ t - t ≥ cfg.cooldownMs := by omega
    simp [h1, h2, hcool]
  · intro t' ht'
    have hg : mapGet (OTPStore.storeOTP cfg hash store email code t)
        (jsTrim (jsToLower email)) =
        some { codeHash := hash (jsTrim (jsToUpper code)), attempts := 0,
               expiresAt := t + cfg.expirationMs, createdAt := t,
               lastRequestAt := t } := mapGet_set_self store _ _
    unfold OTPStore.canRequestOTP
    simp only [hg]
    by_cases hb : t' > t + cfg.expirationMs
    · simp [hb]
    · have hc : t' - t ≥ cfg.cooldownMs := ht'
      simp [hb, hc]

/-- Witness for `canRequestOTP_cooldown` at the default configuration:
false right after issuing, true 60 s later. -/
theorem canRequestOTP_cooldown_witness :
    (OTPStore.canRequestOTP {}
        (OTPStore.storeOTP {} (fun s => s) [] "a@b.c" "code" 1000) "a@b.c" 1000).1
      = false ∧
    (OTPStore.canRequestOTP {}
        (OTPStore.storeOTP {} (fun s => s) [] "a@b.c" "code" 1000) "a@b.c" 61000).1
      = true := by
  have h := canRequestOTP_cooldown {} (fun s => s) [] "a@b.c" "code" 1000
    (by decide) (by decide)
  exact ⟨h.2.1, h.2.2 61000 (by decide)⟩

/-- **C1** — For a live entry below the attempt limit, `verifyOTP`
increments the attempts counter first (the attempt is consumed even on a
wrong guess) and then compares digests (embedded as byte-list equality of
the decoded hex digests, the functional content of the length pre-check
plus `timingSafeEqual`): on a match it deletes the entry and returns
true — so any further verification for the identity fails — and on a
mismatch it returns false and leaves the entry in place with the counter
incremented. -/
theorem verifyOTP_one_time_use
    (cfg : OTPConfig) (hash : String → String) (store : OTPStoreMap)
    (email code : String) (now : Int) (entry : OTPEntry)
    (hget : mapGet store (jsTrim (jsToLower email)) = some entry)
    (hlive : ¬ now > entry.expiresAt)
    (hatt : entry.attempts < cfg.maxAttempts) :
    (hexBytes (hash (jsTrim (jsToUpper code))) = hexBytes entry.codeHash →
      (OTPStore.verifyOTP cfg hash store email code now).1 = true ∧
      mapGet (OTPStore.verifyOTP cfg hash store email code now).2
        (jsTrim (jsToLower email)) = none ∧
      (∀ t' : Int,
        OTPStore.verifyOTP cfg hash
            (OTPStore.verifyOTP cfg hash store email code now).2 email code t' =
          (false, (OTPStore.verifyOTP cfg hash store email code now).2))) ∧
    (hexBytes (hash (jsTrim (jsToUpper code))) ≠ hexBytes entry.codeHash →
      (OTPStore.verifyOTP cfg hash store email code now).1 = false ∧
      mapGet (OTPStore.verifyOTP cfg hash store email code now).2
        (jsTrim (jsToLower email)) =
        some { entry with attempts := entry.attempts + 1 }) := by
  have hnotmax : ¬ entry.attempts ≥ cfg.maxAttempts := not_le.mpr hatt
  constructor
  · intro hmatch
    have hres : OTPStore.verifyOTP cfg hash store email code now =
        (true, mapDelete
          (mapSet store (jsTrim (jsToLower email))
            { entry with attempts := entry.attempts + 1 })
          (jsTrim (jsToLower email))) := by
      unfold OTPStore.verifyOTP
      simp only [hget, if_neg hlive, if_neg hnotmax]
      rw [if_neg (by rw [hmatch]; exact fun h => h rfl), if_pos hmatch.symm]
    refine ⟨by rw [hres], by rw [hres]; exact mapGet_delete_self _ _, ?_⟩
    intro t'
    have hnone := mapGet_delete_self
      (mapSet store (jsTrim (jsToLower email))
        { entry with attempts := entry.attempts + 1 })
      (jsTrim (jsToLower email))
    rw [hres]
    unfold OTPStore.verifyOTP
    simp [hnone]
  · intro hne
    have hres : OTPStore.verifyOTP cfg hash store email code now =
        (false, mapSet store (jsTrim (jsToLower email))
          { entry with attempts := entry.attempts + 1 }) := by
      unfold OTPStore.verifyOTP
      simp only [hget, if_neg hlive, if_neg hnotmax]
      by_cases hlen : (hexBytes entry.codeHash).length ≠
          (hexBytes (hash (jsTrim (jsToUpper code)))).length
      · rw [if_pos hlen]
      · rw [if_neg hlen, if_neg (fun h => hne h.symm)]
    exact ⟨by rw [hres], by rw [hres]; exact mapGet_set_self _ _ _⟩

/-- Witness for `verifyOTP_one_time_use`: the correct code is accepted
once and rejected the second time; a wrong code is rejected and burns an
attempt. -/
theorem verifyOTP_one_time_use_witness :
    (OTPStore.verifyOTP {} (fun s => if s = "CODE" then "aa" else "ff")
        [("a@b.c", ⟨"aa", 0, 100, 0, 0⟩)] "a@b.c" "code" 50).1 = true ∧
    (OTPStore.verifyOTP {} (fun s => if s = "CODE" then "aa" else "ff")
        (OTPStore.verifyOTP {} (fun s => if s = "CODE" then "aa" else "ff")
          [("a@b.c", ⟨"aa", 0, 100, 0, 0⟩)] "a@b.c" "code" 50).2
        "a@b.c" "code" 60).1 = false ∧
    (OTPStore.verifyOTP {} (fun s => if s = "CODE" then "aa" else "ff")
        [("a@b.c", ⟨"aa", 0, 100, 0, 0⟩)] "a@b.c" "wrong" 50).1 = false ∧
    mapGet (OTPStore.verifyOTP {} (fun s => if s = "CODE" then "aa" else "ff")
        [("a@b.c", ⟨"aa", 0, 100, 0, 0⟩)] "a@b.c" "wrong" 50).2
      (jsTrim (jsToLower "a@b.c")) = some ⟨"aa", 1, 100, 0, 0⟩ := by
  have hmatch := (verifyOTP_one_time_use {} (fun s => if s = "CODE" then "aa" else "ff")
    [("a@b.c", ⟨"aa", 0, 100, 0, 0⟩)] "a@b.c" "code" 50 ⟨"aa", 0, 100, 0, 0⟩
    (by decide) (by decide) (by decide)).1 (by decide)
  have hmis := (verifyOTP_one_time_use {} (fun s => if s = "CODE" then "aa" else "ff")
    [("a@b.c", ⟨"aa", 0, 100, 0, 0⟩)] "a@b.c" "wrong" 50 ⟨"aa", 0, 100, 0, 0⟩
    (by decide) (by decide) (by decide)).2 (by decide)
  refine ⟨hmatch.1, ?_, hmis.1, hmis.2⟩
  rw [hmatch.2.2 60]

/-- Running a sequence of wrong guesses (each before expiry) against a
live entry leaves the entry in place with its attempt counter advanced to
`min (attempts + guesses.length) maxAttempts` and everything else
untouched. -/
theorem verifyRun_wrong_guesses
    (cfg : OTPConfig) (hash : String → String) (email : String) (H : String)
    (E C L : Int) :
    ∀ (guesses : List (String × Int)) (store : OTPStoreMap) (a : Nat),
      mapGet store (jsTrim (jsToLower email)) =
        some ⟨H, a, E, C, L⟩ →
      a ≤ cfg.maxAttempts →
      (∀ g ∈ guesses, ¬ g.2 > E) →
      (∀ g ∈ guesses, hexBytes (hash (jsTrim (jsToUpper g.1))) ≠ hexBytes H) →
      mapGet (OTPStore.verifyRun cfg hash store email guesses)
          (jsTrim (jsToLower email)) =
        some ⟨H, min (a + guesses.length) cfg.maxAttempts, E, C, L⟩ := by
  intro guesses
  induction guesses with
  | nil =>
    intro store a hget hle _ _
    unfold OTPStore.verifyRun
    simpa [min_eq_left hle] using hget
  | cons g rest ih =>
    intro store a hget hle htime hwrong
    have hstep : OTPStore.verifyRun cfg hash store email (g :: rest) =
        OTPStore.verifyRun cfg hash
          (OTPStore.verifyOTP cfg hash store email g.1 g.2).2 email rest := by
      unfold OTPStore.verifyRun
      rw [List.foldl_cons]
    have hglive : ¬ g.2 > E := htime g (by simp)
    have hgwrong : hexBytes (hash (jsTrim (jsToUpper g.1))) ≠ hexBytes H :=
      hwrong g (by simp)
    rw [hstep]
    by_cases hmax : a ≥ cfg.maxAttempts
    · have haeq : a = cfg.maxAttempts := le_antisymm hle hmax
      have hsame : (OTPStore.verifyOTP cfg hash store email g.1 g.2).2 = store := by
        unfold OTPStore.verifyOTP
        simp only [hget, if_neg hglive]
        rw [if_pos hmax]
      rw [hsame, ih store a hget hle (fun q hq => htime q (by simp [hq]))
        (fun q hq => hwrong q (by simp [hq]))]
      have : min (a + rest.length) cfg.maxAttempts =
          min (a + (rest.length + 1)) cfg.maxAttempts := by omega
      rw [this]
      rfl
    · push_neg at hmax
      have hnotmax : ¬ (a ≥ cfg.maxAttempts) := not_le.mpr hmax
      have hsucc : (OTPStore.verifyOTP cfg hash store email g.1 g.2).2 =
          mapSet store (jsTrim (jsToLower email)) ⟨H, a + 1, E, C, L⟩ := by
        unfold OTPStore.verifyOTP
        simp only [hget, if_neg hglive, if_neg hnotmax]
        by_cases hlen : (hexBytes H).length =
            (hexBytes (hash (jsTrim (jsToUpper g.1)))).length
        · rw [if_neg (fun h => h hlen), if_neg (fun h => hgwrong h.symm)]
        · rw [if_pos hlen]
      have hget' : mapGet (mapSet store (jsTrim (jsToLower email))
            (⟨H, a + 1, E, C, L⟩ : OTPEntry)) (jsTrim (jsToLower email)) =
          some ⟨H, a + 1, E, C, L⟩ := mapGet_set_self _ _ _
      rw [hsucc, ih _ (a + 1) hget' hmax (fun q hq => htime q (by simp [hq]))
        (fun q hq => hwrong q (by simp [hq]))]
      have : min (a + 1 + rest.length) cfg.maxAttempts =
          min (a + (rest.length + 1)) cfg.maxAttempts := by omega
      rw [this]
      rfl

/-- **C2** — After `maxAttempts` incorrect verifications against one
issued code, every subsequent `verifyOTP` call for that identity before
expiry returns false — a call with the correct code included — and the
store is left unchanged, so the lockout persists. -/
theorem verifyOTP_lockout_after_max_attempts
    (cfg : OTPConfig) (hash : String → String) (store : OTPStoreMap)
    (email code : String) (t : Int) (guesses : List (String × Int))
    (hlen : guesses.length = cfg.maxAttempts)
    (hwrong : ∀ g ∈ guesses,
      hexBytes (hash (jsTrim (jsToUpper g.1))) ≠
        hexBytes (hash (jsTrim (jsToUpper code))))
    (htime : ∀ g ∈ guesses, ¬ g.2 > t + cfg.expirationMs) :
    ∀ (c : String) (t' : Int), ¬ t' > t + cfg.expirationMs →
      OTPStore.verifyOTP cfg hash
          (OTPStore.verifyRun cfg hash
            (OTPStore.storeOTP cfg hash store email code t) email guesses)
          email c t' =
        (false,
          OTPStore.verifyRun cfg hash
            (OTPStore.storeOTP cfg hash store email code t) email guesses) := by
  intro c t' ht'
  have hget0 : mapGet (OTPStore.storeOTP cfg hash store email code t)
      (jsTrim (jsToLower email)) =
      some ⟨hash (jsTrim (jsToUpper code)), 0, t + cfg.expirationMs, t, t⟩ :=
    mapGet_set_self _ _ _
  have hrun := verifyRun_wrong_guesses cfg hash email
    (hash (jsTrim (jsToUpper code))) (t + cfg.expirationMs) t t guesses
    (OTPStore.storeOTP cfg hash store email code t) 0 hget0
    (Nat.zero_le _) htime hwrong
  rw [hlen, Nat.zero_add, min_self] at hrun
  have hmax : (cfg.maxAttempts : Nat) ≥ cfg.maxAttempts := le_refl _
  unfold OTPStore.verifyOTP
  simp only [hrun, if_neg ht']
  rw [if_pos hmax]

/-- Witness for `verifyOTP_lockout_after_max_attempts`: at the default
limit of 3, three wrong guesses lock the entry and the correct code is
then rejected. -/
theorem verifyOTP_lockout_witness :
    (OTPStore.verifyOTP {} (fun s => if s = "CODE" then "aa" else "ff")
        (OTPStore.verifyRun {} (fun s => if s = "CODE" then "aa" else "ff")
          (OTPStore.storeOTP {} (fun s => if s = "CODE" then "aa" else "ff")
            [] "a@b.c" "code" 0)
          "a@b.c" [("x", 1), ("y", 2), ("z", 3)])
        "a@b.c" "code" 4).1 = false := by
  have h := verifyOTP_lockout_after_max_attempts {}
    (fun s => if s = "CODE" then "aa" else "ff") [] "a@b.c" "code" 0
    [("x", 1), ("y", 2), ("z", 3)] (by decide) (by decide) (by decide)
    "code" 4 (by decide)
  rw [h]

/-- A prefix determines the first character: if `p` is a prefix of `r`
and `p` starts with `c`, so does `r`. -/
theorem jsStartsWith_head (r p : String) (c : Char)
    (h : jsStartsWith r p = true) (hc : p.data.head? = some c) :
    r.data.head? = some c := by
  unfold jsStartsWith at h
  obtain ⟨t, ht⟩ := List.isPrefixOf_iff_prefix.mp h
  cases hd : p.data with
  | nil => rw [hd] at hc; cases hc
  | cons a as =>
    rw [hd] at hc ht
    rw [← ht]
    simpa using hc

/-- `startsWith` is monotone along list prefixes of the pattern. -/
theorem jsStartsWith_mono (r p q : String)
    (h : jsStartsWith r p = true) (hq : q.data <+: p.data) :
    jsStartsWith r q = true := by
  unfold jsStartsWith at h ⊢
  exact List.isPrefixOf_iff_prefix.mpr
    (hq.trans (List.isPrefixOf_iff_prefix.mp h))

/-- Strings starting with `"//"` do not start with `"http://"` or
`"https://"`, and do start with `"/"`. -/
theorem protocol_relative_facts (r : String) (h : jsStartsWith r "//" = true) :
    jsStartsWith r "/" = true ∧ jsStartsWith r "http://" = false ∧
      jsStartsWith r "https://" = false := by
  have hhead : r.data.head? = some '/' := jsStartsWith_head r "//" '/' h rfl
  refine ⟨jsStartsWith_mono r "//" "/" h ⟨['/'], rfl⟩, ?_, ?_⟩
  · cases hh : jsStartsWith r "http://" with
    | false => rfl
    | true =>
      have := jsStartsWith_head r "http://" 'h' hh rfl
      rw [hhead] at this
      cases this
  · cases hh : jsStartsWith r "https://" with
    | false => rfl
    | true =>
      have := jsStartsWith_head r "https://" 'h' hh rfl
      rw [hhead] at this
      cases this

/-- **C5** — The redirect sanitizer: a relative path with a single
leading `/` is returned unchanged; a protocol-relative `//…` URL and any
value that is neither `/`-relative nor `http(s)://`-absolute (such as a
`javascript:` URL) collapse to the default `'/'`; an absolute `http(s)`
URL is returned unchanged exactly when its hostname equals the configured
base domain or is a subdomain of it, and collapses to `'/'` otherwise
(foreign hosts). -/
theorem validateRedirectUrl_sanitizes (r base : String) (hbase : base ≠ "") :
    (jsStartsWith r "/" = true → jsStartsWith r "//" = false →
      validateRedirectUrl (some r) (some base) = r) ∧
    (jsStartsWith r "//" = true →
      validateRedirectUrl (some r) (some base) = "/") ∧
    (jsStartsWith r "/" = false → jsStartsWith r "http://" = false →
      jsStartsWith r "https://" = false →
      validateRedirectUrl (some r) (some base) = "/") ∧
    (∀ host : String,
      (jsStartsWith r "https://" = true ∨ jsStartsWith r "http://" = true) →
      urlHostname r = some host →
      validateRedirectUrl (some r) (some base) =
        if host = base || jsEndsWith host ("." ++ base) then r else "/") := by
  refine ⟨?_, ?_, ?_, ?_⟩
  · intro h1 h2
    have hr : r ≠ "" := by
      intro e
      rw [e] at h1
      cases h1
    unfold validateRedirectUrl
    simp [hr, h1, h2]
  · intro h
    obtain ⟨h1, hh, hhs⟩ := protocol_relative_facts r h
    have hr : r ≠ "" := by
      intro e
      rw [e] at h
      cases h
    unfold validateRedirectUrl
    simp [hr, h1, h, hh, hhs]
  · intro h1 hh hhs
    by_cases hr : r = ""
    · unfold validateRedirectUrl
      simp [hr]
    · unfold validateRedirectUrl
      simp [hr, h1, hh, hhs]
  · intro host hs hhost
    have hr : r ≠ "" := by
      intro e
      rcases hs with hs | hs <;> (rw [e] at hs; cases hs)
    have hslash : jsStartsWith r "/" = false := by
      have hhead : r.data.head? = some 'h' := by
        rcases hs with hs | hs
        · exact jsStartsWith_head r "https://" 'h' hs rfl
        · exact jsStartsWith_head r "http://" 'h' hs rfl
      cases hsl : jsStartsWith r "/" with
      | false => rfl
      | true =>
        have := jsStartsWith_head r "/" '/' hsl rfl
        rw [hhead] at this
        cases this
    have hcond : (jsStartsWith r "https://" || jsStartsWith r "http://") = true := by
      rcases hs with hs | hs <;> simp [hs]
    unfold validateRedirectUrl
    simp [hr, hslash, hbase, hcond, hhost]

/-- Witness for `validateRedirectUrl_sanitizes` on the spec's example
inputs against base domain `localhost`. -/
theorem validateRedirectUrl_sanitizes_witness :
    validateRedirectUrl (some "/dashboard") (some "localhost") = "/dashboard" ∧
    validateRedirectUrl (some "//evil.example/") (some "localhost") = "/" ∧
    validateRedirectUrl (some "javascript:alert(1)") (some "localhost") = "/" ∧
    validateRedirectUrl (some "https://evil.example/") (some "localhost") = "/" ∧
    validateRedirectUrl (some "https://app.localhost/x") (some "localhost") =
      "https://app.localhost/x" := by
  refine ⟨?_, ?_, ?_, ?_, ?_⟩
  · exact (validateRedirectUrl_sanitizes "/dashboard" "localhost" (by decide)).1
      (by decide) (by decide)
  · exact (validateRedirectUrl_sanitizes "//evil.example/" "localhost"
      (by decide)).2.1 (by decide)
  · exact (validateRedirectUrl_sanitizes "javascript:alert(1)" "localhost"
      (by decide)).2.2.1 (by decide) (by decide) (by decide)
  · exact ((validateRedirectUrl_sanitizes "https://evil.example/" "localhost"
      (by decide)).2.2.2 "evil.example" (Or.inl (by decide)) (by decide)).trans
      (by decide)
  · exact ((validateRedirectUrl_sanitizes "https://app.localhost/x" "localhost"
      (by decide)).2.2.2 "app.localhost" (Or.inl (by decide)) (by decide)).trans
      (by decide)

/-- **C7** — `validateSubdomain`: with no base domain configured every
declared host is accepted with the development-mode reason; a hostname
that does not match the `(*.)?{baseDomain}` pattern is rejected with a
reason; with an allow-list configured, the wildcard `*` accepts any
matching host, the bare base domain is accepted exactly when the list
contains the empty or `@` sentinel, and otherwise acceptance is exact
membership of the extracted subdomain label in the list.  (The
`plainDomain` hypothesis confines the statement to configured domains on
which the embedded matcher coincides with the source's regex, which
escapes only the first dot of the domain.) -/
theorem validateSubdomain_rules (d a h : String)
    (hh : h ≠ "") (hd : d ≠ "") (_hplain : plainDomain d = true) :
    ((validateSubdomain none (some a) (some h)).isValid = true ∧
      (validateSubdomain none (some a) (some h)).reason =
        some "No domain configured (development mode)") ∧
    (matchesDomainPattern h d = false →
      (validateSubdomain (some d) (some a) (some h)).isValid = false ∧
      ((validateSubdomain (some d) (some a) (some h)).reason).isSome = true) ∧
    (matchesDomainPattern h d = true →
      (validateSubdomain (some d) (some "*") (some h)).isValid = true) ∧
    (matchesDomainPattern h d = true → extractSubdomain h d = "" →
      a ≠ "" → a ≠ "*" →
      (validateSubdomain (some d) (some a) (some h)).isValid =
        ((allowedListOf a).contains "" || (allowedListOf a).contains "@")) ∧
    (matchesDomainPattern h d = true → extractSubdomain h d ≠ "" →
      a ≠ "" → a ≠ "*" →
      (validateSubdomain (some d) (some a) (some h)).isValid =
        (allowedListOf a).contains (extractSubdomain h d)) := by
  refine ⟨?_, ?_, ?_, ?_, ?_⟩
  · unfold validateSubdomain
    simp [hh]
  · intro hm
    unfold validateSubdomain
    simp [hh, hd, hm]
  · intro hm
    unfold validateSubdomain
    simp [hh, hd, hm]
  · intro hm hsub ha hstar
    unfold validateSubdomain
    simp only [if_neg hh, if_neg hd, hm, Bool.not_true, Bool.false_eq_true,
      if_false, if_neg ha, if_neg hstar, hsub]
    by_cases h1 : "" ∈ allowedListOf a <;> by_cases h2 : "@" ∈ allowedListOf a <;>
      simp [h1, h2]
  · intro hm hsub ha hstar
    unfold validateSubdomain
    simp only [if_neg hh, if_neg hd, hm, Bool.not_true, Bool.false_eq_true,
      if_false, if_neg ha, if_neg hstar, if_neg hsub]
    by_cases hmem : extractSubdomain h d ∈ allowedListOf a <;> simp [hmem]

/-- Witness for `validateSubdomain_rules` with domain `example.com` and
allow-list `api,app`: `api.example.com` accepted, `bad.example.com`
rejected, `evil.com` rejected for not matching the pattern, wildcard
accepts, dev-mode accepts. -/
theorem validateSubdomain_rules_witness :
    (validateSubdomain none (some "api,app") (some "whatever")).isValid = true ∧
    (validateSubdomain (some "example.com") (some "api,app")
        (some "evil.com")).isValid = false ∧
    (validateSubdomain (some "example.com") (some "*")
        (some "anything.example.com")).isValid = true ∧
    (validateSubdomain (some "example.com") (some "api,app")
        (some "example.com")).isValid = false ∧
    (validateSubdomain (some "example.com") (some "api,app")
        (some "api.example.com")).isValid = true ∧
    (validateSubdomain (some "example.com") (some "api,app")
        (some "bad.example.com")).isValid = false := by
  have hdev := (validateSubdomain_rules "example.com" "api,app" "whatever"
    (by decide) (by decide) (by decide)).1.1
  have hevil := ((validateSubdomain_rules "example.com" "api,app" "evil.com"
    (by decide) (by decide) (by decide)).2.1 (by decide)).1
  have hwild := (validateSubdomain_rules "example.com" "*" "anything.example.com"
    (by decide) (by decide) (by decide)).2.2.1 (by decide)
  have hbare := (validateSubdomain_rules "example.com" "api,app" "example.com"
    (by decide) (by decide) (by decide)).2.2.2.1 (by decide) (by decide)
    (by decide) (by decide)
  have hapi := (validateSubdomain_rules "example.com" "api,app" "api.example.com"
    (by decide) (by decide) (by decide)).2.2.2.2 (by decide) (by decide)
    (by decide) (by decide)
  have hbad := (validateSubdomain_rules "example.com" "api,app" "bad.example.com"
    (by decide) (by decide) (by decide)).2.2.2.2 (by decide) (by decide)
    (by decide) (by decide)
  exact ⟨hdev, hevil, hwild, hbare.trans (by decide), hapi.trans (by decide),
    hbad.trans (by decide)⟩

/-- The cookie-inspection tail never produces a 403. -/
theorem verifyCookieCheck_ne_denied (ct : Option String) (tokens : TokenStoreMap)
    (now : Int) : (verifyCookieCheck ct tokens now).1 ≠ .denied403 := by
  unfold verifyCookieCheck
  cases ct with
  | none => simp
  | some tok =>
    by_cases ht : tok = ""
    · simp [ht]
    · simp only [if_neg ht]
      rcases hg : TokenStore.getEmail tokens tok (some .session) now with ⟨em, ts'⟩
      cases em <;> simp

/-- **C8** — The verify handler returns a hard 403, before any cookie
inspection, exactly when the host-trust check on the forwarded host fails
and a subdomain allow-list is (truthily) configured; the denial is
independent of any cookie or token state; and with no allow-list
configured the handler never denies and proceeds to cookie-based
verification unchanged. -/
theorem verifyHandler_403_policy
    (domain allowed forwardedHost cookieToken : Option String)
    (tokens : TokenStoreMap) (now : Int) :
    ((verifyHandler domain allowed forwardedHost cookieToken tokens now).1 =
        .denied403 ↔
      ((validateSubdomain domain allowed forwardedHost).isValid = false ∧
        envTruthy allowed = true)) ∧
    ((validateSubdomain domain allowed forwardedHost).isValid = false →
      envTruthy allowed = true →
      ∀ (ct : Option String) (ts : TokenStoreMap),
        verifyHandler domain allowed forwardedHost ct ts now =
          (.denied403, ts)) ∧
    (envTruthy allowed = false →
      verifyHandler domain allowed forwardedHost cookieToken tokens now =
        verifyCookieCheck cookieToken tokens now) := by
  refine ⟨?_, ?_, ?_⟩
  · constructor
    · intro hd
      unfold verifyHandler at hd
      by_cases hcond : (!(validateSubdomain domain allowed forwardedHost).isValid &&
          envTruthy allowed) = true
      · rw [Bool.and_eq_true] at hcond
        constructor
        · simpa using hcond.1
        · exact hcond.2
      · rw [if_neg (by simp [hcond])] at hd
        exact absurd hd (verifyCookieCheck_ne_denied _ _ _)
    · intro ⟨h1, h2⟩
      unfold verifyHandler
      rw [if_pos (by simp [h1, h2])]
  · intro h1 h2 ct ts
    unfold verifyHandler
    rw [if_pos (by simp [h1, h2])]
  · intro h
    unfold verifyHandler
    rw [if_neg (by simp [h])]

/-- Witness for `verifyHandler_403_policy`: with allow-list `api`, a
request from `evil.com` is denied 403 even with a valid session cookie;
with no allow-list the same request passes host trust and succeeds. -/
theorem verifyHandler_403_policy_witness :
    verifyHandler (some "example.com") (some "api") (some "evil.com")
        (some "tok") [("tok", ⟨"a@b.c", .session, 100, 0⟩)] 5 =
      (.denied403, [("tok", ⟨"a@b.c", .session, 100, 0⟩)]) ∧
    (verifyHandler (some "example.com") none (some "evil.com")
        (some "tok") [("tok", ⟨"a@b.c", .session, 100, 0⟩)] 5).1 =
      .ok200 "a@b.c" := by
  constructor
  · exact (verifyHandler_403_policy (some "example.com") (some "api")
      (some "evil.com") (some "tok") [("tok", ⟨"a@b.c", .session, 100, 0⟩)]
      5).2.1 (by decide) (by decide) (some "tok")
      [("tok", ⟨"a@b.c", .session, 100, 0⟩)]
  · have h := (verifyHandler_403_policy (some "example.com") none
      (some "evil.com") (some "tok") [("tok", ⟨"a@b.c", .session, 100, 0⟩)]
      5).2.2 (by decide)
    rw [h]
    decide
